import Mathlib

/-!
# Hunt the Wumpus (pi-pico-go) — verification of the game-state engine

A shallow embedding of the game logic of `wumpus` (Go/TinyGo, Raspberry Pi
Pico), following the v1.0.0 source (`main.go` revision, here `part_001`)
together with `constants.go` and `globals.go`.  The embedding models:

* the RNG wrapper `irandom` (Go `uint` is 32-bit on the RP2040 target, so
  arithmetic wraps modulo 2^32);
* world generation `createWorld` / `rollHazards`, with the unbounded
  rejection-sampling loops rendered as fuel-indexed recursions returning
  `Option` (`none` = the loop did not terminate within the fuel);
* the sense-layer derivation scan of `createWorld`;
* the joystick gate `checkJoystick`, the direction decoder `getDirection`,
  and the button-debounce logic of `gameLoop`;
* the movement switch, the fire-resolution switch, and `checkHazards`.

An RNG stream is modelled as a function `ℕ → ℕ` giving the successive raw
values returned by `machine.GetRNG`, together with a cursor for the next
draw.
-/

set_option autoImplicit false

namespace Wumpus

/-- Map markers, from `constants.go` (`EMPTY`, `PIT`, `BAT`, `WUMPUS`). -/
inductive Hazard where
  | empty
  | pit
  | bat
  | wumpus
deriving DecidableEq, Repr

/-- Movement directions, from `constants.go` (`UP`, `DOWN`, `LEFT`,
`RIGHT`).  The extra marker `NONE` is rendered as `Option.none` at use
sites (`getDirection` returns `Option Dir`). -/
inductive Dir where
  | up
  | down
  | left
  | right
deriving DecidableEq, Repr

/-- Round outcomes, identified by the text `gameOver` is handed:
`textWin` (won), `textLose` (killed by the Wumpus), `textFell`
(fell into a pit). -/
inductive Outcome where
  | won
  | lostPit
  | lostWumpus
deriving DecidableEq, Repr

/-- An 8×8 board, indexed `grid x y` as in the Go arrays
(`hazards[x][y]` etc.); only indices `< 8` are meaningful. -/
def Board (α : Type) : Type := ℕ → ℕ → α

/-- Point update of a board (a Go array element assignment). -/
def bset {α : Type} (g : Board α) (x y : ℕ) (v : α) : Board α :=
  fun i j => if i = x ∧ j = y then v else g i j

/-- `constants.go`: `UPPER_LIMIT uint16 = 50000`. -/
def UPPER_LIMIT : ℕ := 50000

/-- `constants.go`: `LOWER_LIMIT uint16 = 10000`. -/
def LOWER_LIMIT : ℕ := 10000

/-- `constants.go`: `DEBOUNCE_TIME_MS int64 = 10`. -/
def DEBOUNCE_TIME_MS : ℕ := 10

/-- 2^32: Go `uint` on the RP2040 (TinyGo, 32-bit target) wraps at this
modulus. -/
def U32 : ℕ := 4294967296

/-- `irandom(start, max)` from `main.go`: with `value` the raw RNG draw,
the code returns `uint(uint(value)%max + start)`, i.e. `(value % max +
start)` in 32-bit wrapping arithmetic. -/
def irandom (value start mx : ℕ) : ℕ :=
  (value % mx + start) % U32

/-- An RNG stream (successive `machine.GetRNG` values) plus the cursor of
the next draw. -/
structure RandState where
  rng : ℕ → ℕ
  k : ℕ

/-- Perform one `irandom(start, max)` call: consume one stream value. -/
def drawRand (s : RandState) (start mx : ℕ) : ℕ × RandState :=
  (irandom (s.rng s.k) start mx, ⟨s.rng, s.k + 1⟩)

/-- The acceptance test of the rejection-sampling loop in `rollHazards`
(`main.go` line 197):
`hazards[hazard_x][hazard_y] == EMPTY && hazard_x != playerX && hazard_y != playerY`. -/
def rollAccept (hz : Board Hazard) (px py x y : ℕ) : Bool :=
  hz x y == Hazard.empty && x != px && y != py

/-- One iteration round of the inner `for {}` loop of `rollHazards`:
draw `hazard_x = irandom(0,8)` then `hazard_y = irandom(0,8)`, stop when
the acceptance test passes.  Fuel-indexed; `none` means the loop did not
finish within the fuel. -/
def rollOne (hz : Board Hazard) (px py : ℕ) :
    ℕ → RandState → Option ((ℕ × ℕ) × RandState)
  | 0, _ => none
  | fuel + 1, s =>
    let (x, s1) := drawRand s 0 8
    let (y, s2) := drawRand s1 0 8
    if rollAccept hz px py x y then some ((x, y), s2)
    else rollOne hz px py fuel s2

/-- `rollHazards(hazardType, count)`: place `count` copies of a hazard,
each via the rejection-sampling loop, onto the (global) hazard board. -/
def rollHazards (h : Hazard) (px py : ℕ) (fuel : ℕ) :
    ℕ → Board Hazard → RandState → Option (Board Hazard × RandState)
  | 0, hz, s => some (hz, s)
  | count + 1, hz, s =>
    match rollOne hz px py fuel s with
    | none => none
    | some ((x, y), s') => rollHazards h px py fuel count (bset hz x y h) s'

/-- The body of the sense-derivation double loop in `createWorld` for one
cell `(i, j)` and one hazard/layer pair: if the cell holds the hazard,
mark its in-bounds orthogonal neighbours in the layer (the four guarded
assignments `if i < 7`, `if i > 0`, `if j < 7`, `if j > 0`). -/
def markCell (h : Hazard) (hz : Board Hazard) (layer : Board Bool)
    (i j : ℕ) : Board Bool :=
  if hz i j = h then
    let l1 := if i < 7 then bset layer (i + 1) j true else layer
    let l2 := if 0 < i then bset l1 (i - 1) j true else l1
    let l3 := if j < 7 then bset l2 i (j + 1) true else l2
    if 0 < j then bset l3 i (j - 1) true else l3
  else layer

/-- The cells `(i, j)`, `0 ≤ i, j < 8`, in the scan order of the
`createWorld` double loop. -/
def allCells : List (ℕ × ℕ) :=
  (List.range 8).flatMap fun i => (List.range 8).map fun j => (i, j)

/-- The sense-derivation scan of `createWorld` for one layer: starting
from the all-false board, visit every cell and mark the neighbours of
each cell holding the hazard.  (The source derives all three layers in a
single scan whose `else if` branches are mutually exclusive on the cell's
hazard value and write to disjoint layers, so deriving each layer by its
own scan is the same computation.) -/
def deriveLayer (h : Hazard) (hz : Board Hazard) : Board Bool :=
  allCells.foldl (fun layer c => markCell h hz layer c.1 c.2)
    (fun _ _ => false)

/-- The world state produced by `createWorld`: the five global boards of
`globals.go` plus the player start position and the initial
`lastMoveDirection`. -/
structure World where
  hazards : Board Hazard
  visited : Board Bool
  stink : Board Bool
  draught : Board Bool
  sound : Board Bool
  px : ℕ
  py : ℕ
  facing : Dir

/-- `createWorld()` from `main.go`: choose the start corner from
`startPoints` via `irandom(0, 4) << 1`, set the incoming direction, zero
the boards, place `irandom(1, 4)` bats, `irandom(1, 4)` pits and one
Wumpus via `rollHazards`, then derive the three sense layers. -/
def createWorld (fuel : ℕ) (s : RandState) : Option (World × RandState) :=
  let startPoints : List ℕ := [0, 0, 0, 7, 7, 7, 7, 0]
  let (c, s1) := drawRand s 0 4
  let corner := c <<< 1
  let px := startPoints.getD corner 0
  let py := startPoints.getD (corner + 1) 0
  let facing := if py = 0 then Dir.up else Dir.down
  let hz0 : Board Hazard := fun _ _ => Hazard.empty
  let (nbats, s2) := drawRand s1 1 4
  match rollHazards Hazard.bat px py fuel nbats hz0 s2 with
  | none => none
  | some (hz1, s3) =>
    let (npits, s4) := drawRand s3 1 4
    match rollHazards Hazard.pit px py fuel npits hz1 s4 with
    | none => none
    | some (hz2, s5) =>
      match rollHazards Hazard.wumpus px py fuel 1 hz2 s5 with
      | none => none
      | some (hz3, s6) =>
        some ({ hazards := hz3
                visited := fun _ _ => false
                stink := deriveLayer Hazard.wumpus hz3
                draught := deriveLayer Hazard.pit hz3
                sound := deriveLayer Hazard.bat hz3
                px := px, py := py, facing := facing }, s6)

/-- Number of board cells holding a given hazard (over the 8×8 grid). -/
def hcount (hz : Board Hazard) (h : Hazard) : ℕ :=
  ((List.range 8).map fun i =>
    ((List.range 8).filter fun j => hz i j == h).length).sum

/-- The off-centre test of `checkJoystick` (`main.go` line 342):
`x > UPPER_LIMIT || x < LOWER_LIMIT || y > UPPER_LIMIT || y < LOWER_LIMIT`. -/
def offCentre (x y : ℕ) : Bool :=
  decide (UPPER_LIMIT < x) || decide (x < LOWER_LIMIT) ||
  decide (UPPER_LIMIT < y) || decide (y < LOWER_LIMIT)

/-- `checkJoystick(x, y)` from `main.go`, with the global
`isJoystickCentred` passed and returned explicitly.  Result:
`(reading accepted, new isJoystickCentred)`. -/
def checkJoystick (centred : Bool) (x y : ℕ) : Bool × Bool :=
  if offCentre x y then
    if centred then (true, false) else (false, false)
  else (false, true)

/-- Run `checkJoystick` over a sequence of raw readings, counting the
accepted (movement-producing) polls; returns the final latch state and
the number of accepted polls. -/
def joyRun : Bool → List (ℕ × ℕ) → Bool × ℕ
  | c, [] => (c, 0)
  | c, r :: rs =>
    let (acc, c') := checkJoystick c r.1 r.2
    let (cFin, n) := joyRun c' rs
    (cFin, (if acc then 1 else 0) + n)

/-- The axis classification of `getDirection`:
`ydead := y > LOWER_LIMIT && y < UPPER_LIMIT` (strictly inside the
dead-zone limits), and likewise for the X axis. -/
def axisDead (v : ℕ) : Prop :=
  LOWER_LIMIT < v ∧ v < UPPER_LIMIT

instance (v : ℕ) : Decidable (axisDead v) := by
  unfold axisDead; infer_instance

/-- `getDirection(x, y)` from `main.go`.  The three `if` blocks of the
source are sequential (a block whose inner tests both fail falls through
to the next block and ultimately to `return NONE`), which the chained
`Option.orElse` mirrors; `NONE` is `Option.none`. -/
def getDirection (x y : ℕ) : Option Dir :=
  (Option.orElse
    (if axisDead y ∧ ¬ axisDead x then
      if x < LOWER_LIMIT then some Dir.right
      else if UPPER_LIMIT < x then some Dir.left
      else none
     else none)
    (fun _ => Option.orElse
      (if axisDead x ∧ ¬ axisDead y then
        if y < LOWER_LIMIT then some Dir.down
        else if UPPER_LIMIT < y then some Dir.up
        else none
       else none)
      (fun _ =>
        if ¬ axisDead x ∧ ¬ axisDead y then
          if x < LOWER_LIMIT then some Dir.right
          else if UPPER_LIMIT < x then some Dir.left
          else if y < LOWER_LIMIT then some Dir.down
          else if UPPER_LIMIT < y then some Dir.up
          else none
        else none)))

/-- The button-debounce state of `gameLoop`: the globals
`debounceButtonFlag` and `debounceButtonCount` (the arm timestamp, in
milliseconds). -/
structure Debounce where
  flag : Bool
  count : ℕ

/-- One pressed poll of the fire button with the joystick in the
dead-zone (the `PIN_BUTTON.Get()` branch of `gameLoop`): arm on the
first pressed poll; once armed, fire and disarm when strictly more than
`DEBOUNCE_TIME_MS` have elapsed since arming.  Result:
`(new state, Fire event emitted)`. -/
def debounceStep (s : Debounce) (now : ℕ) : Debounce × Bool :=
  if !s.flag then (⟨true, now⟩, false)
  else if DEBOUNCE_TIME_MS < now - s.count then (⟨false, s.count⟩, true)
  else (s, false)

/-- Run the debounce logic over the poll times of a sustained press,
counting emitted Fire events. -/
def debounceRun : Debounce → List ℕ → Debounce × ℕ
  | s, [] => (s, 0)
  | s, t :: ts =>
    let (s', f) := debounceStep s t
    let (sFin, n) := debounceRun s' ts
    (sFin, (if f then 1 else 0) + n)

/-- Player state mutated by the movement switch of `gameLoop`:
`playerX`, `playerY` and `lastMoveDirection`. -/
structure Player where
  x : ℕ
  y : ℕ
  facing : Dir
deriving DecidableEq, Repr

/-- The movement `switch direction` of `gameLoop` (lines 231–256): each
direction moves only if the boundary test passes, and
`lastMoveDirection` is updated exactly in that case; `NONE` matches no
case. -/
def movePlayer (p : Player) (d : Option Dir) : Player :=
  match d with
  | some Dir.up => if p.y < 7 then ⟨p.x, p.y + 1, Dir.up⟩ else p
  | some Dir.down => if 0 < p.y then ⟨p.x, p.y - 1, Dir.down⟩ else p
  | some Dir.left => if 0 < p.x then ⟨p.x - 1, p.y, Dir.left⟩ else p
  | some Dir.right => if p.x < 7 then ⟨p.x + 1, p.y, Dir.right⟩ else p
  | none => p

/-- The arrow-resolution `switch lastMoveDirection` of `gameLoop`
(lines 276–313): each case tests the boundary, then compares the cell
one step ahead with `WUMPUS`; a hit runs `deadWumpusAnimation` (which
ends in `gameWon`), a miss runs `arrowMissAnimation` (which ends in
`gameLost(true)`, i.e. the Wumpus kills the player); when the boundary
test fails nothing at all happens and the loop continues.  `none` means
the round state is unchanged. -/
def fireResolve (hz : Board Hazard) (px py : ℕ) (d : Dir) :
    Option Outcome :=
  match d with
  | Dir.up =>
    if py < 7 then
      if hz px (py + 1) = Hazard.wumpus then some Outcome.won
      else some Outcome.lostWumpus
    else none
  | Dir.down =>
    if 0 < py then
      if hz px (py - 1) = Hazard.wumpus then some Outcome.won
      else some Outcome.lostWumpus
    else none
  | Dir.right =>
    if px < 7 then
      if hz (px + 1) py = Hazard.wumpus then some Outcome.won
      else some Outcome.lostWumpus
    else none
  | Dir.left =>
    if 0 < px then
      if hz (px - 1) py = Hazard.wumpus then some Outcome.won
      else some Outcome.lostWumpus
    else none

/-- The rejection-sampling loop of the bat branch of `checkHazards`:
draw `x = irandom(0,8)`, `y = irandom(0,8)` until the drawn cell is
`EMPTY`.  Fuel-indexed as for `rollOne`. -/
def relocate (hz : Board Hazard) :
    ℕ → RandState → Option ((ℕ × ℕ) × RandState)
  | 0, _ => none
  | fuel + 1, s =>
    let (x, s1) := drawRand s 0 8
    let (y, s2) := drawRand s1 0 8
    if hz x y = Hazard.empty then some ((x, y), s2)
    else relocate hz fuel s2

/-- `checkHazards()` from `main.go`, acting on the player position just
reached.  Result: `(position after resolution, isDead, outcome, rng)`;
the bat branch teleports the player and the round continues; the pit and
Wumpus branches call `gameLost(false)` / `gameLost(true)` and report
death. -/
def checkHazards (hz : Board Hazard) (px py : ℕ) (fuel : ℕ)
    (s : RandState) : Option ((ℕ × ℕ) × Bool × Option Outcome × RandState) :=
  if hz px py = Hazard.bat then
    match relocate hz fuel s with
    | none => none
    | some ((x, y), s') => some ((x, y), false, none, s')
  else if hz px py = Hazard.pit then
    some ((px, py), true, some Outcome.lostPit, s)
  else if hz px py = Hazard.wumpus then
    some ((px, py), true, some Outcome.lostWumpus, s)
  else
    some ((px, py), false, none, s)

/-- The movement branch of one `gameLoop` tick (an accepted joystick
reading decoded to `d`): mark the current cell visited, apply the
movement switch, then run `checkHazards` at the new position.  Result:
`(visited board, player after hazard resolution, isDead, outcome, rng)`. -/
def moveTick (hz : Board Hazard) (vis : Board Bool) (p : Player)
    (d : Option Dir) (fuel : ℕ) (s : RandState) :
    Option (Board Bool × Player × Bool × Option Outcome × RandState) :=
  let vis' := bset vis p.x p.y true
  let p' := movePlayer p d
  match checkHazards hz p'.x p'.y fuel s with
  | none => none
  | some ((nx, ny), dead, out, s') =>
    some (vis', ⟨nx, ny, p'.facing⟩, dead, out, s')

/-- The destination cell of one step from `(x, y)` in direction `d`, in
signed coordinates (the spec's `position + unit_vector(facing)`; `UP`
increases `y` in this game's orientation, as in the movement switch). -/
def stepZ (x y : ℕ) (d : Dir) : ℤ × ℤ :=
  match d with
  | Dir.up => ((x : ℤ), (y : ℤ) + 1)
  | Dir.down => ((x : ℤ), (y : ℤ) - 1)
  | Dir.left => ((x : ℤ) - 1, (y : ℤ))
  | Dir.right => ((x : ℤ) + 1, (y : ℤ))

/-- A signed coordinate pair lies outside the 8×8 grid. -/
def outOfGrid (t : ℤ × ℤ) : Prop :=
  t.1 < 0 ∨ 7 < t.1 ∨ t.2 < 0 ∨ 7 < t.2

instance (t : ℤ × ℤ) : Decidable (outOfGrid t) := by
  unfold outOfGrid; infer_instance

/-- `(x, y)` has a 4-orthogonally adjacent in-bounds cell (no diagonals,
no wraparound) holding the hazard `h`.  Spec-side predicate used to
state the sense-layer claims. -/
def adjHazard (hz : Board Hazard) (h : Hazard) (x y : ℕ) : Prop :=
  (x + 1 < 8 ∧ hz (x + 1) y = h) ∨ (0 < x ∧ hz (x - 1) y = h) ∨
  (y + 1 < 8 ∧ hz x (y + 1) = h) ∨ (0 < y ∧ hz x (y - 1) = h)

instance (hz : Board Hazard) (h : Hazard) (x y : ℕ) :
    Decidable (adjHazard hz h x y) := by
  unfold adjHazard; infer_instance

/-- The set of cells a single `markCell` visit at `(i, j)` marks (the
four guarded neighbour assignments), as a relation on coordinates.
Proof device for the fold characterisation of `deriveLayer`. -/
def marksAt (i j x y : ℕ) : Prop :=
  (i < 7 ∧ x = i + 1 ∧ y = j) ∨ (0 < i ∧ x = i - 1 ∧ y = j) ∨
  (j < 7 ∧ x = i ∧ y = j + 1) ∨ (0 < j ∧ x = i ∧ y = j - 1)

instance (i j x y : ℕ) : Decidable (marksAt i j x y) := by
  unfold marksAt; infer_instance

/-- An all-`EMPTY` hazard board (the board right after the zeroing loop
of `createWorld`). -/
def emptyBoard : Board Hazard := fun _ _ => Hazard.empty

/-- An all-false visited board. -/
def visEmpty : Board Bool := fun _ _ => false

/-- A concrete RNG stream: corner draw 0 (start `(0, 0)`), bat count
draw 3 (`irandom(1, 4) = 4`), bats at `(1, 1)`, `(2, 2)`, `(3, 3)`,
`(4, 4)`, pit count draw 0 (one pit) at `(5, 5)`, Wumpus at `(6, 6)`. -/
def badStream : RandState :=
  ⟨fun n => [0, 3, 1, 1, 2, 2, 3, 3, 4, 4, 0, 5, 5, 6, 6].getD n 0, 0⟩

/-- A concrete RNG stream: corner draw 0 (start `(0, 0)`), one bat at
`(2, 2)`, one pit at `(4, 4)`, the Wumpus at `(3, 3)`. -/
def goodStream : RandState :=
  ⟨fun n => [0, 0, 2, 2, 0, 4, 4, 3, 3].getD n 0, 0⟩

/-- A hazard board holding exactly one Wumpus, at `(5, 5)`. -/
def hzW : Board Hazard :=
  fun i j => if i = 5 ∧ j = 5 then Hazard.wumpus else Hazard.empty

/-- A hazard board holding exactly one bat, at `(0, 1)`. -/
def hzB : Board Hazard :=
  fun i j => if i = 0 ∧ j = 1 then Hazard.bat else Hazard.empty

/-- A player at the start corner `(0, 0)` facing up. -/
def p0 : Player := ⟨0, 0, Dir.up⟩

/-- A constant RNG stream drawing 3 forever (so the relocation loop
draws the cell `(3, 3)`). -/
def sB : RandState := ⟨fun _ => 3, 0⟩

/-! ## Helper lemmas -/

/-- Lookup after a point update. -/
theorem bset_apply {α : Type} (g : Board α) (x y : ℕ) (v : α) (i j : ℕ) :
    bset g x y v i j = if i = x ∧ j = y then v else g i j := rfl

/-- A point update to `true` never unsets a `true` entry. -/
theorem bset_true_mono (g : Board Bool) (x y i j : ℕ)
    (h : g i j = true) : bset g x y true i j = true := by
  unfold bset
  split <;> simp [h]

/-- A successful relocation lands on an `EMPTY` cell. -/
theorem relocate_empty (hz : Board Hazard) :
    ∀ (fuel : ℕ) (s : RandState) (x y : ℕ) (s' : RandState),
      relocate hz fuel s = some ((x, y), s') → hz x y = Hazard.empty := by
  intro fuel
  induction fuel with
  | zero => intro s x y s' h; exact absurd h (by simp [relocate])
  | succ n ih =>
    intro s x y s' h
    unfold relocate at h
    dsimp only [drawRand] at h
    split at h
    next hc =>
      simp only [Option.some.injEq, Prod.mk.injEq] at h
      obtain ⟨⟨hx, hy⟩, -⟩ := h
      rw [← hx, ← hy]
      exact hc
    next _ =>
      exact ih _ x y s' h

end Wumpus

namespace Wumpus

/-! ## C10 — the RNG wrapper -/

/-- Claim C10 as stated is false: with 32-bit wrap-around, `irandom`
applied at `start = 2^32 - 1`, `max = 2` and raw draw `1` returns `0`,
which does not lie in `[start, start + max)` and differs from
`start + (1 % 2)`. -/
theorem irandom_wraps_around :
    irandom 1 (U32 - 1) 2 = 0 ∧ ¬ (U32 - 1 ≤ irandom 1 (U32 - 1) 2) ∧
    irandom 1 (U32 - 1) 2 ≠ (U32 - 1) + 1 % 2 := by decide

/-- Claim C10, amended with the proviso `start + max ≤ 2^32` (so the
32-bit sum cannot wrap): `irandom(start, max)` returns
`start + (r mod max)`, the result lies in `[start, start + max)`, and
every value of that interval is attained for some raw draw. -/
theorem irandom_spec (r start mx : ℕ) (hmx : 0 < mx)
    (hno : start + mx ≤ U32) :
    irandom r start mx = start + r % mx ∧
    start ≤ irandom r start mx ∧
    irandom r start mx < start + mx ∧
    ∀ v, start ≤ v → v < start + mx → ∃ r2, irandom r2 start mx = v := by
  have h1 : r % mx < mx := Nat.mod_lt _ hmx
  have e : irandom r start mx = start + r % mx := by
    unfold irandom
    rw [Nat.mod_eq_of_lt (by omega)]
    omega
  refine ⟨e, by omega, by omega, ?_⟩
  intro v hv1 hv2
  refine ⟨v - start, ?_⟩
  unfold irandom
  have h2 : (v - start) % mx = v - start := Nat.mod_eq_of_lt (by omega)
  rw [h2, Nat.mod_eq_of_lt (by omega)]
  omega

/-- Witness for `irandom_spec`: at `r = 7`, `start = 1`, `max = 4` the
amended properties evaluate as stated. -/
theorem irandom_spec_holds :
    0 < 4 ∧ 1 + 4 ≤ U32 ∧ irandom 7 1 4 = 1 + 7 % 4 :=
  ⟨by decide, by decide, (irandom_spec 7 1 4 (by decide) (by decide)).1⟩

/-! ## C1 — world-generation postcondition -/

/-- Claim C1 fails on the code: because `irandom(1, 4)` ranges over
`{1, 2, 3, 4}`, a bat-count draw of `3` makes `createWorld` place four
bats, outside the claimed (and commented, "Create 1-3 bats") range
`[1, 3]`.  On the stream `badStream` generation succeeds and the
resulting world holds exactly four bat cells. -/
theorem createWorld_can_place_four_bats :
    (createWorld 64 badStream).map
      (fun p => hcount p.1.hazards Hazard.bat) = some 4 := by decide

/-! ## C3 — hazard-placement acceptance test -/

/-- Claim C3 fails on the code: the acceptance test
`hazards[x][y] == EMPTY && x != playerX && y != playerY` rejects the
cell `(0, 1)` for start `(0, 0)` on an all-empty board, although that
cell is `EMPTY` and is not the start cell (the code excludes the whole
start row and start column, not just the start cell). -/
theorem rollAccept_rejects_empty_nonstart_cell :
    rollAccept emptyBoard 0 0 0 1 = false ∧
    emptyBoard 0 1 = Hazard.empty ∧
    ((0 : ℕ), (1 : ℕ)) ≠ ((0 : ℕ), (0 : ℕ)) := by decide

/-! ## C6 — button debounce -/

/-- While armed at `t0`, polls whose elapsed time stays within the
debounce window neither fire nor change the debounce state. -/
theorem debounceRun_armed_within (t0 : ℕ) :
    ∀ ts : List ℕ, (∀ t ∈ ts, t - t0 ≤ DEBOUNCE_TIME_MS) →
      debounceRun ⟨true, t0⟩ ts = (⟨true, t0⟩, 0) := by
  intro ts
  induction ts with
  | nil => intro _; rfl
  | cons t ts ih =>
    intro h
    have h1 : t - t0 ≤ DEBOUNCE_TIME_MS := h t (List.mem_cons_self t ts)
    have hstep : debounceStep ⟨true, t0⟩ t = (⟨true, t0⟩, false) := by
      unfold debounceStep
      simp only [Bool.not_true, Bool.false_eq_true, if_false]
      rw [if_neg (by omega)]
    simp only [debounceRun, hstep]
    rw [ih (fun u hu => h u (List.mem_cons_of_mem t hu))]
    simp

/-- Splitting a debounce run over a concatenation. -/
theorem debounceRun_append (s : Debounce) (l1 l2 : List ℕ) :
    debounceRun s (l1 ++ l2) =
      ((debounceRun (debounceRun s l1).1 l2).1,
        (debounceRun s l1).2 + (debounceRun (debounceRun s l1).1 l2).2) := by
  induction l1 generalizing s with
  | nil => simp [debounceRun]
  | cons t ts ih =>
    simp only [List.cons_append, debounceRun, List.append_eq]
    rw [ih]
    simp only [Prod.mk.injEq]
    exact ⟨trivial, by ring⟩

/-- Claim C6 is refuted by the code: with a press read as pressed on the
polls at 0, 50, 100 and 150 ms (joystick centred throughout) — a press
held well past the 10 ms window — the debounce logic emits two Fire
events (at 50 ms and at 150 ms), not exactly one: after firing it
disarms and the next pressed poll re-arms it. -/
theorem debounce_long_press_fires_twice :
    DEBOUNCE_TIME_MS ≤ 150 - 0 ∧
    (debounceRun ⟨false, 0⟩ [0, 50, 100, 150]).2 = 2 := by decide

/-- Claim C6, amended: a press held pressed for a total duration shorter
than the 10 ms window produces zero Fire events; and exactly one Fire
event has been produced up to and including the first poll at which
strictly more than the window has elapsed since the arming poll.  (A
press sustained beyond that poll re-arms and fires again once per
elapsed window, so "exactly one Fire per press" does not hold for the
whole press.) -/
theorem debounce_amended :
    (∀ (c t0 : ℕ) (ts : List ℕ), (∀ t ∈ ts, t - t0 < DEBOUNCE_TIME_MS) →
      (debounceRun ⟨false, c⟩ (t0 :: ts)).2 = 0) ∧
    (∀ (c t0 tF : ℕ) (ts : List ℕ), (∀ t ∈ ts, t - t0 ≤ DEBOUNCE_TIME_MS) →
      DEBOUNCE_TIME_MS < tF - t0 →
      (debounceRun ⟨false, c⟩ (t0 :: (ts ++ [tF]))).2 = 1) := by
  constructor
  · intro c t0 ts h
    have harm : debounceStep ⟨false, c⟩ t0 = (⟨true, t0⟩, false) := rfl
    simp only [debounceRun, harm]
    rw [debounceRun_armed_within t0 ts (fun t ht => Nat.le_of_lt (h t ht))]
    simp
  · intro c t0 tF ts h hF
    have harm : debounceStep ⟨false, c⟩ t0 = (⟨true, t0⟩, false) := rfl
    have hfire : debounceStep ⟨true, t0⟩ tF = (⟨false, t0⟩, true) := by
      unfold debounceStep
      simp only [Bool.not_true, Bool.false_eq_true, if_false]
      rw [if_pos hF]
    simp only [debounceRun, harm]
    rw [debounceRun_append, debounceRun_armed_within t0 ts h]
    simp [debounceRun, hfire]

/-- Witness for `debounce_amended`: a press with polls at 0 and 5 ms
fires zero times; a press with polls at 0, 5 and 50 ms fires exactly
once through the first over-window poll. -/
theorem debounce_amended_holds :
    (debounceRun ⟨false, 0⟩ (0 :: [5])).2 = 0 ∧
    (debounceRun ⟨false, 0⟩ (0 :: ([5] ++ [50]))).2 = 1 :=
  ⟨debounce_amended.1 0 0 [5] (by decide),
   debounce_amended.2 0 0 50 [5] (by decide) (by decide)⟩

/-! ## C7 — joystick edge-triggering -/

/-- With the latch already released (`isJoystickCentred = false`),
off-centre readings are never accepted and the latch stays released. -/
theorem joyRun_deflected :
    ∀ rs : List (ℕ × ℕ), (∀ r ∈ rs, offCentre r.1 r.2 = true) →
      joyRun false rs = (false, 0) := by
  intro rs
  induction rs with
  | nil => intro _; rfl
  | cons r rs ih =>
    intro h
    have h1 : offCentre r.1 r.2 = true := h r (List.mem_cons_self r rs)
    have hstep : checkJoystick false r.1 r.2 = (false, false) := by
      unfold checkJoystick
      rw [if_pos h1]
      rfl
    simp only [joyRun, hstep]
    rw [ih (fun q hq => h q (List.mem_cons_of_mem r hq))]
    simp

/-- Claim C7: the movement gate is edge-triggered.  From the centred
state, a sustained off-centre excursion (every poll off-centre) is
accepted exactly once, at its first poll; and any poll reading both
axes inside `[LOWER_LIMIT, UPPER_LIMIT]` is not accepted and re-arms
the latch (only after which a new excursion can be accepted). -/
theorem checkJoystick_edge_triggered :
    (∀ (r : ℕ × ℕ) (rs : List (ℕ × ℕ)), offCentre r.1 r.2 = true →
      (∀ q ∈ rs, offCentre q.1 q.2 = true) →
      (joyRun true (r :: rs)).2 = 1) ∧
    (∀ (c : Bool) (x y : ℕ), offCentre x y = false →
      checkJoystick c x y = (false, true)) := by
  constructor
  · intro r rs h1 h
    have hstep : checkJoystick true r.1 r.2 = (true, false) := by
      unfold checkJoystick
      rw [if_pos h1]
      rfl
    simp only [joyRun, hstep]
    rw [joyRun_deflected rs h]
    simp
  · intro c x y h
    unfold checkJoystick
    rw [if_neg (by simp [h])]

/-- Witness for `checkJoystick_edge_triggered`: a three-poll excursion
at the fully-deflected reading `(60000, 30000)` yields one accepted
poll, and a centred reading `(30000, 30000)` re-arms the latch. -/
theorem checkJoystick_edge_triggered_holds :
    (joyRun true [(60000, 30000), (60000, 30000), (60000, 30000)]).2 = 1 ∧
    checkJoystick false 30000 30000 = (false, true) :=
  ⟨checkJoystick_edge_triggered.1 (60000, 30000)
      [(60000, 30000), (60000, 30000)] (by decide) (by decide),
   checkJoystick_edge_triggered.2 false 30000 30000 (by decide)⟩

/-! ## C8 — direction decoding -/

/-- Claim C8: the decoding table of `getDirection`.  With the Y axis
dead (strictly inside the limits, as the code classifies it) and X
live, X below the lower limit gives Right and X above the upper limit
gives Left; symmetrically for a dead X axis (below gives Down, above
gives Up); with both axes live the priority order is Right, Left, Down,
Up, so a reading strictly past a threshold on both axes (a true
diagonal) always resolves to a horizontal move; with both axes dead the
result is `NONE`. -/
theorem getDirection_table (x y : ℕ) :
    (axisDead y → ¬ axisDead x → x < LOWER_LIMIT →
      getDirection x y = some Dir.right) ∧
    (axisDead y → ¬ axisDead x → UPPER_LIMIT < x →
      getDirection x y = some Dir.left) ∧
    (axisDead x → ¬ axisDead y → y < LOWER_LIMIT →
      getDirection x y = some Dir.down) ∧
    (axisDead x → ¬ axisDead y → UPPER_LIMIT < y →
      getDirection x y = some Dir.up) ∧
    (¬ axisDead x → ¬ axisDead y → x < LOWER_LIMIT →
      getDirection x y = some Dir.right) ∧
    (¬ axisDead x → ¬ axisDead y → UPPER_LIMIT < x →
      getDirection x y = some Dir.left) ∧
    (¬ axisDead x → ¬ axisDead y → ¬ x < LOWER_LIMIT → ¬ UPPER_LIMIT < x →
      y < LOWER_LIMIT → getDirection x y = some Dir.down) ∧
    (¬ axisDead x → ¬ axisDead y → ¬ x < LOWER_LIMIT → ¬ UPPER_LIMIT < x →
      UPPER_LIMIT < y → getDirection x y = some Dir.up) ∧
    ((x < LOWER_LIMIT ∨ UPPER_LIMIT < x) → (y < LOWER_LIMIT ∨ UPPER_LIMIT < y) →
      getDirection x y = some Dir.right ∨ getDirection x y = some Dir.left) ∧
    (axisDead x → axisDead y → getDirection x y = none) := by
  unfold getDirection axisDead LOWER_LIMIT UPPER_LIMIT
  refine ⟨?_, ?_, ?_, ?_, ?_, ?_, ?_, ?_, ?_, ?_⟩ <;>
    · intros
      split_ifs <;> first | rfl | omega | (left; rfl) | (right; rfl)

/-- Witness for `getDirection_table`: a dead-Y live-X reading decodes
Right, a dead-X live-Y reading decodes Up, a true diagonal resolves
horizontally, and a fully centred reading decodes to `NONE`. -/
theorem getDirection_table_holds :
    getDirection 5000 30000 = some Dir.right ∧
    getDirection 30000 60000 = some Dir.up ∧
    (getDirection 5000 60000 = some Dir.right ∨
      getDirection 5000 60000 = some Dir.left) ∧
    getDirection 30000 30000 = none :=
  ⟨(getDirection_table 5000 30000).1 (by decide) (by decide) (by decide),
   (getDirection_table 30000 60000).2.2.2.1 (by decide) (by decide) (by decide),
   (getDirection_table 5000 60000).2.2.2.2.2.2.2.2.1 (by decide) (by decide),
   (getDirection_table 30000 30000).2.2.2.2.2.2.2.2.2 (by decide) (by decide)⟩

/-! ## C9 — movement clamping -/

/-- Claim C9: a move whose destination lies outside the 8×8 grid leaves
the player (position and `lastMoveDirection`) unchanged; and the facing
changes only when the position actually changes. -/
theorem movePlayer_clamps (p : Player) (d : Dir)
    (hx : p.x < 8) (hy : p.y < 8) :
    (outOfGrid (stepZ p.x p.y d) → movePlayer p (some d) = p) ∧
    ((movePlayer p (some d)).facing ≠ p.facing →
      (movePlayer p (some d)).x ≠ p.x ∨ (movePlayer p (some d)).y ≠ p.y) := by
  obtain ⟨px, py, pf⟩ := p
  simp only at hx hy
  cases d <;>
    refine ⟨fun hOut => ?_, fun hF => ?_⟩ <;>
      simp only [stepZ, outOfGrid, movePlayer] at * <;>
      split_ifs at * <;> simp_all <;> omega

/-- Witness for `movePlayer_clamps`: moving Right from `(7, 3)` (the
destination column 8 is off the grid) is a no-op. -/
theorem movePlayer_clamps_holds :
    movePlayer ⟨7, 3, Dir.up⟩ (some Dir.right) = ⟨7, 3, Dir.up⟩ :=
  (movePlayer_clamps ⟨7, 3, Dir.up⟩ Dir.right (by decide) (by decide)).1
    (by decide)

/-! ## C2 — arrow-shot resolution -/

/-- Claim C2: resolving a Fire event against the cell one step ahead of
the player in the facing direction.  If that target lies outside the
8×8 grid, the round state is unchanged and play continues; if the
in-bounds target holds the Wumpus, the round ends with outcome Won;
an in-bounds miss ends the round with outcome LostWumpus. -/
theorem fireResolve_spec (hz : Board Hazard) (px py : ℕ) (d : Dir)
    (hx : px < 8) (hy : py < 8) :
    (outOfGrid (stepZ px py d) → fireResolve hz px py d = none) ∧
    (¬ outOfGrid (stepZ px py d) →
      hz (stepZ px py d).1.toNat (stepZ px py d).2.toNat = Hazard.wumpus →
      fireResolve hz px py d = some Outcome.won) ∧
    (¬ outOfGrid (stepZ px py d) →
      hz (stepZ px py d).1.toNat (stepZ px py d).2.toNat ≠ Hazard.wumpus →
      fireResolve hz px py d = some Outcome.lostWumpus) := by
  cases d <;>
    refine ⟨fun hOut => ?_, fun hIn hW => ?_, fun hIn hW => ?_⟩ <;>
      simp only [fireResolve]
  case up.refine_1 =>
    simp only [stepZ, outOfGrid] at hOut
    rw [if_neg (by omega)]
  case up.refine_2 =>
    simp only [stepZ, outOfGrid] at hIn hW
    rw [show ((py : ℤ) + 1).toNat = py + 1 by omega,
        show ((px : ℤ)).toNat = px by omega] at hW
    rw [if_pos (by omega), if_pos hW]
  case up.refine_3 =>
    simp only [stepZ, outOfGrid] at hIn hW
    rw [show ((py : ℤ) + 1).toNat = py + 1 by omega,
        show ((px : ℤ)).toNat = px by omega] at hW
    rw [if_pos (by omega), if_neg hW]
  case down.refine_1 =>
    simp only [stepZ, outOfGrid] at hOut
    rw [if_neg (by omega)]
  case down.refine_2 =>
    simp only [stepZ, outOfGrid] at hIn hW
    rw [show ((py : ℤ) - 1).toNat = py - 1 by omega,
        show ((px : ℤ)).toNat = px by omega] at hW
    rw [if_pos (by omega), if_pos hW]
  case down.refine_3 =>
    simp only [stepZ, outOfGrid] at hIn hW
    rw [show ((py : ℤ) - 1).toNat = py - 1 by omega,
        show ((px : ℤ)).toNat = px by omega] at hW
    rw [if_pos (by omega), if_neg hW]
  case left.refine_1 =>
    simp only [stepZ, outOfGrid] at hOut
    rw [if_neg (by omega)]
  case left.refine_2 =>
    simp only [stepZ, outOfGrid] at hIn hW
    rw [show ((px : ℤ) - 1).toNat = px - 1 by omega,
        show ((py : ℤ)).toNat = py by omega] at hW
    rw [if_pos (by omega), if_pos hW]
  case left.refine_3 =>
    simp only [stepZ, outOfGrid] at hIn hW
    rw [show ((px : ℤ) - 1).toNat = px - 1 by omega,
        show ((py : ℤ)).toNat = py by omega] at hW
    rw [if_pos (by omega), if_neg hW]
  case right.refine_1 =>
    simp only [stepZ, outOfGrid] at hOut
    rw [if_neg (by omega)]
  case right.refine_2 =>
    simp only [stepZ, outOfGrid] at hIn hW
    rw [show ((px : ℤ) + 1).toNat = px + 1 by omega,
        show ((py : ℤ)).toNat = py by omega] at hW
    rw [if_pos (by omega), if_pos hW]
  case right.refine_3 =>
    simp only [stepZ, outOfGrid] at hIn hW
    rw [show ((px : ℤ) + 1).toNat = px + 1 by omega,
        show ((py : ℤ)).toNat = py by omega] at hW
    rw [if_pos (by omega), if_neg hW]

/-- Witness for `fireResolve_spec`: on the board with the Wumpus at
`(5, 5)`, firing Right from `(7, 3)` (target column 8, off the grid)
changes nothing, and firing Up from `(5, 4)` hits the Wumpus and wins
the round. -/
theorem fireResolve_spec_holds :
    fireResolve hzW 7 3 Dir.right = none ∧
    fireResolve hzW 5 4 Dir.up = some Outcome.won :=
  ⟨(fireResolve_spec hzW 7 3 Dir.right (by decide) (by decide)).1 (by decide),
   (fireResolve_spec hzW 5 4 Dir.up (by decide) (by decide)).2.1
     (by decide) (by decide)⟩

/-! ## C5 — stepping on a bat -/

/-- Claim C5: when the player's move lands on a Bat cell and the
relocation loop terminates, the round does not end (not dead, no
outcome), the player is teleported to a cell that is `EMPTY` on the
hazard board — hence a cell different from the Bat cell, so the
position changes — and no `visited` entry that was true becomes
false. -/
theorem batStep_spec (hz : Board Hazard) (vis : Board Bool) (p : Player)
    (d : Option Dir) (fuel : ℕ) (s : RandState)
    (hBat : hz (movePlayer p d).x (movePlayer p d).y = Hazard.bat) :
    match moveTick hz vis p d fuel s with
    | none => True
    | some (vis', q, dead, out, _) =>
      dead = false ∧ out = none ∧ hz q.x q.y = Hazard.empty ∧
      (q.x ≠ (movePlayer p d).x ∨ q.y ≠ (movePlayer p d).y) ∧
      ∀ a b, vis a b = true → vis' a b = true := by
  simp only [moveTick, checkHazards]
  rw [if_pos hBat]
  cases hrel : relocate hz fuel s with
  | none => simp
  | some pr =>
    obtain ⟨⟨x, y⟩, s'⟩ := pr
    have hemp : hz x y = Hazard.empty := relocate_empty hz fuel s x y s' hrel
    simp only
    refine ⟨by simp, by simp, hemp, ?_, ?_⟩
    · by_contra hc
      push_neg at hc
      rw [hc.1, hc.2] at hemp
      exact Hazard.noConfusion (hemp.symm.trans hBat)
    · intro a b hab
      exact bset_true_mono vis p.x p.y a b hab

/-- Witness for `batStep_spec`: on the board with a single bat at
`(0, 1)`, moving Up from `(0, 0)` lands on the bat; with the constant
draw stream `sB` the player is dropped at the empty cell `(3, 3)` and
the round continues. -/
theorem batStep_spec_holds :
    hzB (movePlayer p0 (some Dir.up)).x (movePlayer p0 (some Dir.up)).y =
      Hazard.bat ∧
    (match moveTick hzB visEmpty p0 (some Dir.up) 4 sB with
     | none => True
     | some (vis', q, dead, out, _) =>
       dead = false ∧ out = none ∧ hzB q.x q.y = Hazard.empty ∧
       (q.x ≠ (movePlayer p0 (some Dir.up)).x ∨
         q.y ≠ (movePlayer p0 (some Dir.up)).y) ∧
       ∀ a b, visEmpty a b = true → vis' a b = true) :=
  ⟨by decide,
   batStep_spec hzB visEmpty p0 (some Dir.up) 4 sB (by decide)⟩

/-! ## C4 — sense layers -/

/-- Reading a guarded neighbour assignment: the cell is set exactly
when the guard holds and the coordinates match, or it was already
set. -/
theorem guard_bset_true (c : Prop) [Decidable c] (g : Board Bool)
    (a b x y : ℕ) :
    ((if c then bset g a b true else g) x y = true) ↔
      ((c ∧ x = a ∧ y = b) ∨ g x y = true) := by
  split_ifs with hc
  · simp only [bset]
    split_ifs with he
    · simp [hc, he]
    · simp [he]
  · simp [hc]

/-- One `markCell` visit at `(i, j)` marks `(x, y)` exactly when it was
already marked, or the visited cell holds the hazard and `(x, y)` is
one of its guarded neighbours. -/
theorem markCell_eq (h : Hazard) (hz : Board Hazard) (layer : Board Bool)
    (i j x y : ℕ) :
    markCell h hz layer i j x y = true ↔
      layer x y = true ∨ (hz i j = h ∧ marksAt i j x y) := by
  by_cases hh : hz i j = h
  · simp only [markCell, if_pos hh]
    rw [guard_bset_true, guard_bset_true, guard_bset_true, guard_bset_true]
    unfold marksAt
    tauto
  · simp only [markCell, if_neg hh]
    simp [hh]

/-- Characterisation of the sense-derivation fold over any cell list. -/
theorem foldl_markCell_eq (h : Hazard) (hz : Board Hazard) (x y : ℕ) :
    ∀ (cs : List (ℕ × ℕ)) (layer : Board Bool),
      (cs.foldl (fun l c => markCell h hz l c.1 c.2) layer) x y = true ↔
        layer x y = true ∨ ∃ c ∈ cs, hz c.1 c.2 = h ∧ marksAt c.1 c.2 x y := by
  intro cs
  induction cs with
  | nil => intro layer; simp
  | cons c cs ih =>
    intro layer
    simp only [List.foldl_cons]
    rw [ih, markCell_eq]
    simp only [List.mem_cons, exists_eq_or_imp]
    tauto

/-- Membership in the scan order list is exactly the in-bounds test. -/
theorem mem_allCells (a b : ℕ) : (a, b) ∈ allCells ↔ a < 8 ∧ b < 8 := by
  simp [allCells, List.mem_flatMap, List.mem_map, List.mem_range]

/-- The derived layer for hazard `h` is true at an in-bounds cell
exactly when some 4-orthogonally adjacent in-bounds cell holds `h`. -/
theorem deriveLayer_iff (h : Hazard) (hz : Board Hazard) (x y : ℕ)
    (hx : x < 8) (hy : y < 8) :
    (deriveLayer h hz x y = true ↔ adjHazard hz h x y) := by
  unfold deriveLayer
  rw [foldl_markCell_eq]
  simp only [Bool.false_eq_true, false_or]
  constructor
  · rintro ⟨⟨i, j⟩, hmem, hh, hm⟩
    rw [mem_allCells] at hmem
    unfold marksAt at hm
    unfold adjHazard
    rcases hm with ⟨h7, hx1, hy1⟩ | ⟨h0, hx1, hy1⟩ | ⟨h7, hx1, hy1⟩ | ⟨h0, hx1, hy1⟩
    · right; left
      refine ⟨by omega, ?_⟩
      have e : x - 1 = i := by omega
      rw [e, hy1]
      exact hh
    · left
      refine ⟨by omega, ?_⟩
      have e : x + 1 = i := by omega
      rw [e, hy1]
      exact hh
    · right; right; right
      refine ⟨by omega, ?_⟩
      have e : y - 1 = j := by omega
      rw [e, hx1]
      exact hh
    · right; right; left
      refine ⟨by omega, ?_⟩
      have e : y + 1 = j := by omega
      rw [e, hx1]
      exact hh
  · intro ha
    unfold adjHazard at ha
    rcases ha with ⟨hb, hh⟩ | ⟨hb, hh⟩ | ⟨hb, hh⟩ | ⟨hb, hh⟩
    · refine ⟨(x + 1, y), (mem_allCells (x + 1) y).2 ⟨hb, hy⟩, hh, ?_⟩
      unfold marksAt
      right; left
      exact ⟨by omega, by omega, rfl⟩
    · refine ⟨(x - 1, y), (mem_allCells (x - 1) y).2 ⟨by omega, hy⟩, hh, ?_⟩
      unfold marksAt
      left
      exact ⟨by omega, by omega, rfl⟩
    · refine ⟨(x, y + 1), (mem_allCells x (y + 1)).2 ⟨hx, hb⟩, hh, ?_⟩
      unfold marksAt
      right; right; right
      exact ⟨by omega, rfl, by omega⟩
    · refine ⟨(x, y - 1), (mem_allCells x (y - 1)).2 ⟨hx, by omega⟩, hh, ?_⟩
      unfold marksAt
      right; right; left
      exact ⟨by omega, rfl, by omega⟩

/-- Every world built by `createWorld` carries sense layers that are
exactly the derivation scans of its final hazard board. -/
theorem createWorld_layers (fuel : ℕ) (s : RandState) (w : World)
    (s' : RandState) (hw : createWorld fuel s = some (w, s')) :
    w.stink = deriveLayer Hazard.wumpus w.hazards ∧
    w.draught = deriveLayer Hazard.pit w.hazards ∧
    w.sound = deriveLayer Hazard.bat w.hazards := by
  simp only [createWorld, drawRand] at hw
  repeat' split at hw
  all_goals
    first
    | exact Option.noConfusion hw
    | · simp only [Option.some.injEq, Prod.mk.injEq] at hw
        rw [← hw.1]
        exact ⟨rfl, rfl, rfl⟩

/-- Claim C4: in every generated world, the stink (resp. draught,
sound) layer is true at an in-bounds cell exactly when some
4-orthogonally adjacent in-bounds cell (no diagonals, no wraparound)
holds the Wumpus (resp. a Pit, a Bat). -/
theorem createWorld_sense_iff (fuel : ℕ) (s : RandState) (x y : ℕ)
    (hx : x < 8) (hy : y < 8) :
    match createWorld fuel s with
    | none => True
    | some (w, _) =>
      (w.stink x y = true ↔ adjHazard w.hazards Hazard.wumpus x y) ∧
      (w.draught x y = true ↔ adjHazard w.hazards Hazard.pit x y) ∧
      (w.sound x y = true ↔ adjHazard w.hazards Hazard.bat x y) := by
  cases hw : createWorld fuel s with
  | none => trivial
  | some p =>
    obtain ⟨w, s'⟩ := p
    obtain ⟨h1, h2, h3⟩ := createWorld_layers fuel s w s' hw
    simp only
    rw [h1, h2, h3]
    exact ⟨deriveLayer_iff _ _ x y hx hy, deriveLayer_iff _ _ x y hx hy,
      deriveLayer_iff _ _ x y hx hy⟩

/-- Witness for `createWorld_sense_iff`: on the stream `goodStream`
generation succeeds (bat `(2, 2)`, pit `(4, 4)`, Wumpus `(3, 3)`), and
the layer/adjacency equivalences hold at the cell `(4, 3)`. -/
theorem createWorld_sense_iff_holds :
    4 < 8 ∧ 3 < 8 ∧
    (match createWorld 64 goodStream with
     | none => True
     | some (w, _) =>
       (w.stink 4 3 = true ↔ adjHazard w.hazards Hazard.wumpus 4 3) ∧
       (w.draught 4 3 = true ↔ adjHazard w.hazards Hazard.pit 4 3) ∧
       (w.sound 4 3 = true ↔ adjHazard w.hazards Hazard.bat 4 3)) :=
  ⟨by decide, by decide,
   createWorld_sense_iff 64 goodStream 4 3 (by decide) (by decide)⟩

end Wumpus
